import Mathlib

/-!
Shallow embedding of the collection orchestrator of the aws-inventory-tool
repository (Go), covering the data model (pkg/models/resource.go), the
orchestrator pipeline (orchestrator package: prepareServices, createWorkItems,
executeCollection, collectSingle, aggregateResults, Collect) and the region
validator (aws package: ValidateRegions).

Modelling conventions:
- Go `error` values become `Option String` (`none` = nil error); the message is
  the `fmt.Errorf`/`fmt.Sprintf` format instantiated with string arguments.
- Go `map[string]int` becomes `GoMap`, which distinguishes the nil map from a
  made (possibly empty) map, since the code relies on `make` producing non-nil
  maps.
- Go `time.Time`/`time.Duration` become `Int` instants and spans; the single
  `time.Since(startTime)` call in `aggregateResults` is made explicit by passing
  the current instant `now` and recording a `readClock` event in an event trace,
  so that how often and when the clock is read is part of the model.
- Goroutine interleaving is not modelled: with a parent context that is never
  cancelled, every spawned task in `executeCollection` runs to completion and
  appends exactly one result (the fail-fast branch at the end of the task body
  is an empty block in the source, so it has no observable effect), hence the
  multiset of results is that of a sequential map over the work items; the model
  uses work-item order. The semaphore capacity computation is modelled
  separately (`makeChanCap`) to capture Go's `make(chan T, n)` behaviour on the
  raw, unvalidated `opts.Parallel` value.
-/

namespace AwsInv

/-- Normalized AWS resource, from `pkg/models/resource.go` (`Resource`). The Go
field `Type` is renamed `Type'` (Lean reserves `Type`); `CreatedAt *time.Time`
becomes an optional instant; `Tags map[string]string` becomes an association
list; the loosely-typed `Extra map[string]interface{}` bag is not carried (no
orchestrator logic reads it). -/
structure Resource where
  Service : String
  Region : String
  ID : String
  Name : String := ""
  Type' : String := ""
  State : String := ""
  Class : String := ""
  CreatedAt : Option Int := none
  Tags : List (String × String) := []
deriving DecidableEq

/-- A Go `map[string]int` value: either the nil map or a made map holding an
association list with at most one binding per key (as built below). Iteration
order of Go maps is not modelled; no code embedded here iterates a
`map[string]int`. -/
inductive GoMap where
  | nil
  | of (entries : List (String × Nat))
deriving DecidableEq

namespace GoMap

/-- Go `make(map[string]int)`: a non-nil empty map. -/
def make : GoMap := .of []

/-- Add `v` to the binding of `k` (Go `m[k] += v`, where a missing key reads as
zero), keeping first-insertion order of keys. -/
def incrList : List (String × Nat) → String → Nat → List (String × Nat)
  | [], k, v => [(k, v)]
  | (k', v') :: rest, k, v =>
      if k' = k then (k', v' + v) :: rest else (k', v') :: incrList rest k v

/-- Go `m[k] += v`. Writing to a nil map panics in Go; `aggregateResults` only
ever writes to maps it has just made, so the nil case is unreachable there and
is mapped to nil. -/
def incr : GoMap → String → Nat → GoMap
  | .nil, _, _ => .nil
  | .of l, k, v => .of (incrList l k v)

/-- Sum of all values of the map (zero for the nil map). -/
def sumValues : GoMap → Nat
  | .nil => 0
  | .of l => (l.map Prod.snd).sum

/-- Value bound to `k` (Go `m[k]`, missing keys and the nil map read as 0). -/
def get : GoMap → String → Nat
  | .nil, _ => 0
  | .of l, k => match l.find? (fun e => e.fst = k) with
    | some e => e.snd
    | none => 0

end GoMap

/-- Inventory statistics, from `pkg/models/resource.go` (`Summary`). `Regions`
and `Services` are the distinct region/service slices; their order in Go comes
from randomized map iteration, modelled here as first-insertion order. -/
structure Summary where
  TotalResources : Nat := 0
  ByService : GoMap := .nil
  ByRegion : GoMap := .nil
  ByState : GoMap := .nil
  Errors : Nat := 0
  Duration : Int := 0
  Regions : List String := []
  Services : List String := []
deriving DecidableEq

/-- Aggregated collection, from `pkg/models/resource.go` (`ResourceCollection`). -/
structure ResourceCollection where
  Resources : List Resource
  Errors : List String
  Summary : Summary
deriving DecidableEq

/-- Result of running one collector in one region, from
`pkg/models/resource.go` (`CollectorResult`). -/
structure CollectorResult where
  Service : String
  Region : String
  Resources : List Resource
  Error : Option String
deriving DecidableEq

/-- Insertion into a Go `map[string]bool` used as a set (`m[k] = true`),
modelled as an insertion-ordered duplicate-free list. -/
def setInsert (l : List String) (k : String) : List String :=
  if k ∈ l then l else l ++ [k]

/-- Mutable state of the loop body of `aggregateResults` (orchestrator source,
lines 226-261): the local slices `allResources` and `errors`, the summary under
construction, and the two distinct-value sets. -/
structure AggState where
  allResources : List Resource
  errors : List String
  summary : Summary
  regionSet : List String
  serviceSet : List String
deriving DecidableEq

/-- Body of the inner `for _, resource := range result.Resources` loop of
`aggregateResults` (lines 255-259): resources with a non-empty state bump
`ByState[state]`. -/
def stateCount (m : GoMap) (resource : Resource) : GoMap :=
  if resource.State ≠ "" then m.incr resource.State 1 else m

/-- One iteration of the `for _, result := range results` loop of
`aggregateResults`: an errored result appends one formatted message and bumps
`summary.Errors`; a successful result appends its resources, bumps the
`ByService`/`ByRegion` counters by the resource count, records the region and
service in the distinct sets, and bumps `ByState` once per resource with a
non-empty state. -/
def aggStep (st : AggState) (result : CollectorResult) : AggState :=
  match result.Error with
  | some err =>
      let errorMsg := result.Service ++ "/" ++ result.Region ++ ": " ++ err
      { st with
        errors := st.errors ++ [errorMsg],
        summary := { st.summary with Errors := st.summary.Errors + 1 } }
  | none =>
      { st with
        allResources := st.allResources ++ result.Resources,
        summary := { st.summary with
          ByService := st.summary.ByService.incr result.Service result.Resources.length,
          ByRegion := st.summary.ByRegion.incr result.Region result.Resources.length,
          ByState := result.Resources.foldl stateCount st.summary.ByState },
        regionSet := setInsert st.regionSet result.Region,
        serviceSet := setInsert st.serviceSet result.Service }

/-- State at the top of the loop of `aggregateResults`: empty local slices,
freshly made maps, and the one clock read already stored in `Duration`. -/
def aggInit (startTime now : Int) : AggState :=
  { allResources := [], errors := [],
    summary :=
      { ByService := GoMap.make
        ByRegion := GoMap.make
        ByState := GoMap.make
        Duration := now - startTime },
    regionSet := [], serviceSet := [] }

/-- Events observable during `aggregateResults`, used to pin down when the
clock is read relative to the folding of the outcomes. -/
inductive AggEvent where
  | readClock
  | foldOutcome (service region : String)
deriving DecidableEq

/-- Embedding of `aggregateResults` (orchestrator source, lines 225-278),
instrumented with an event trace. `startTime` is the instant captured at the
top of `Collect`; `now` is the instant `time.Since` observes. The source
initializes the summary literal — including `Duration: time.Since(startTime)`,
the one clock read — before the loop over `results`, then folds every result,
then converts the two sets to slices and sets `TotalResources`. -/
def aggregateResultsT (results : List CollectorResult) (startTime now : Int) :
    ResourceCollection × List AggEvent :=
  let folded := results.foldl
    (fun (acc : AggState × List AggEvent) result =>
      (aggStep acc.fst result,
       acc.snd ++ [AggEvent.foldOutcome result.Service result.Region]))
    (aggInit startTime now, [AggEvent.readClock])
  let st := folded.fst
  let summary := { st.summary with
    Regions := st.regionSet,
    Services := st.serviceSet,
    TotalResources := st.allResources.length }
  (⟨st.allResources, st.errors, summary⟩, folded.snd)

/-- The `aggregateResults` return value (the trace dropped). -/
def aggregateResults (results : List CollectorResult) (startTime now : Int) :
    ResourceCollection :=
  (aggregateResultsT results startTime now).fst

/-- A registered collector, abstracting the `models.Collector` interface as the
orchestrator uses it: `RegionsFn` is the value of the `Regions()` method (Go
nil slice = `[]`), and `CollectFn` maps a region to the `(resources, error)`
pair returned by `Collect` (both components are kept, as in Go a collector may
return resources alongside an error; `collectSingle` stores both). -/
structure CollectorModel where
  RegionsFn : List String
  CollectFn : String → List Resource × Option String

/-- The orchestrator's collector registry (`o.collectors map[string]Collector`),
as an association list with at most one binding per service name. -/
structure Orchestrator where
  collectors : List (String × CollectorModel)

/-- Go map lookup `o.collectors[service]`. -/
def lookupCollector (cs : List (String × CollectorModel)) (s : String) :
    Option CollectorModel :=
  match cs with
  | [] => none
  | (k, c) :: rest => if k = s then some c else lookupCollector rest s

/-- Embedding of `GetAvailableServices`: the registry's keys, sorted
(`sort.Strings` applied to the randomized map iteration). -/
def GetAvailableServices (o : Orchestrator) : List String :=
  ((o.collectors.map Prod.fst).mergeSort (fun a b => decide (a ≤ b)))

/-- A single loop of the shape Go uses in `prepareServices` and
`ValidateRegions`: walk the input once, appending each element to the first
list when `p` holds and to the second otherwise, preserving input order. -/
def splitBy (p : String → Bool) : List String → List String × List String
  | [] => ([], [])
  | x :: rest =>
      let (yes, no) := splitBy p rest
      if p x then (x :: yes, no) else (yes, x :: no)

/-- Options of the collection run, from the orchestrator source
(`CollectOptions`). `Parallel` is a Go `int`, so it can be negative. The
`Timeout` field only parameterizes the caller-made context and is not part of
the pure model. -/
structure CollectOptions where
  Services : List String
  Regions : List String
  Parallel : Int
  FailFast : Bool
  Verbose : Bool := false

/-- Embedding of `prepareServices` (orchestrator source, lines 98-120): an
empty request selects every registered service; otherwise the request is split
into services present in the registry and services that are not, and any
invalid service fails the call with a message joining the invalid names. -/
def prepareServices (o : Orchestrator) (services : List String) :
    Except String (List String) :=
  if services.isEmpty then
    .ok (GetAvailableServices o)
  else
    let (validServices, invalidServices) :=
      splitBy (fun s => (lookupCollector o.collectors s).isSome) services
    if invalidServices.length > 0 then
      .error ("invalid services: " ++ String.intercalate ", " invalidServices)
    else
      .ok validServices

/-- Embedding of `ValidateRegions` (aws source, lines 385-412), given the
region list `availableRegions` that `DiscoverRegions` produced (that network
call is the external collaborator): the requested regions are split against the
membership map built from `availableRegions`, and the pair of the valid
sublist and the (possibly nil) error is returned — Go returns both values. -/
def ValidateRegions (availableRegions regions : List String) :
    List String × Option String :=
  let (validRegions, invalidRegions) :=
    splitBy (fun r => availableRegions.contains r) regions
  if invalidRegions.length > 0 then
    (validRegions, some ("invalid regions: " ++ String.intercalate ", " invalidRegions))
  else
    (validRegions, none)

/-- Embedding of `prepareRegions` (orchestrator source, lines 123-131):
an empty request falls back to region discovery (`discovered`, the outcome of
the external `DiscoverRegions` call); otherwise the request is validated and a
non-nil validation error fails the call (in Go both values of `ValidateRegions`
are returned and `Collect` checks the error). -/
def prepareRegions (discovered : Except String (List String))
    (regions : List String) : Except String (List String) :=
  if regions.isEmpty then
    discovered
  else do
    let availableRegions ← discovered
    match ValidateRegions availableRegions regions with
    | (_, some e) => .error e
    | (validRegions, none) => .ok validRegions

/-- A single collection task, from the orchestrator source (`workItem`). -/
structure workItem where
  Service : String
  Region : String
deriving DecidableEq

/-- The `Regions()` list of the collector registered for `service`. Services
reaching `createWorkItems` have been validated by `prepareServices`, so the
lookup succeeds there; a missing service would be a nil-interface method call
(panic) in Go and is mapped to the empty list. -/
def collectorRegionsOf (o : Orchestrator) (service : String) : List String :=
  match lookupCollector o.collectors service with
  | some c => c.RegionsFn
  | none => []

/-- Embedding of `createWorkItems` (orchestrator source, lines 140-160): for
each service, one item per region of the collector's own `Regions()` list when
that list is non-empty, otherwise one item per selected region. -/
def createWorkItems (o : Orchestrator) (services regions : List String) :
    List workItem :=
  services.flatMap (fun service =>
    let collectorRegions := collectorRegionsOf o service
    if collectorRegions.length > 0 then
      collectorRegions.map (fun region => { Service := service, Region := region })
    else
      regions.map (fun region => { Service := service, Region := region }))

/-- Embedding of `collectSingle` (orchestrator source, lines 205-222): run the
collector of the item's service on the item's region and wrap both returned
values in a `CollectorResult`. -/
def collectSingle (o : Orchestrator) (item : workItem) : CollectorResult :=
  let (resources, err) :=
    match lookupCollector o.collectors item.Service with
    | some c => c.CollectFn item.Region
    | none => ([], none)
  { Service := item.Service, Region := item.Region,
    Resources := resources, Error := err }

/-- Go `make(chan T, n)`: a negative capacity panics in the runtime
(`makechan: size out of range`); otherwise the channel has capacity `n`. -/
def makeChanCap (n : Int) : Except String Nat :=
  if n < 0 then .error "makechan: size out of range" else .ok n.toNat

/-- The semaphore construction of `executeCollection` (orchestrator source,
line 169): the raw `opts.Parallel` value is passed to `make(chan struct{}, _)`
with no rejection or clamping beforehand. -/
def executeCollectionSemaphoreCap (opts : CollectOptions) : Except String Nat :=
  makeChanCap opts.Parallel

/-- Embedding of `executeCollection` (orchestrator source, lines 163-202) under
a parent context that is never cancelled and a positive `opts.Parallel`: every
work item's goroutine acquires the semaphore, runs `collectSingle`, and appends
exactly one result; the `if opts.FailFast && result.Error != nil` branch at the
end of the task body (lines 193-196) is an empty block — comments only, no
cancel call — so neither `FailFast` nor an error changes which items run.
Completion order is scheduler-dependent in Go; the model uses item order. -/
def executeCollection (o : Orchestrator) (workItems : List workItem)
    (opts : CollectOptions) : List CollectorResult :=
  workItems.map (fun item => collectSingle o item)

/-- Embedding of `Collect` (orchestrator source, lines 70-95): validate
services, then discover or validate regions, then build the work items, execute
them, and aggregate, returning the collection; any preparation error is
returned as the error of the whole call (with a nil collection). `discovered`
stands for the external `DiscoverRegions` collaborator; `startTime` is captured
on entry and `now` is the instant the aggregation's clock read observes. -/
def Collect (o : Orchestrator) (discovered : Except String (List String))
    (startTime now : Int) (opts : CollectOptions) :
    Except String ResourceCollection := do
  let services ← prepareServices o opts.Services
  let regions ← prepareRegions discovered opts.Regions
  let workItems := createWorkItems o services regions
  let results := executeCollection o workItems opts
  .ok (aggregateResults results startTime now)

/-! Proof-support definitions and concrete fixtures. -/

/-- Invariant of the aggregation loop: the three counter maps are non-nil and
their value sums track the accumulated resource and error lists. -/
def aggInv (st : AggState) : Prop :=
  st.summary.ByService ≠ .nil ∧
  st.summary.ByRegion ≠ .nil ∧
  st.summary.ByState ≠ .nil ∧
  st.summary.ByService.sumValues = st.allResources.length ∧
  st.summary.ByRegion.sumValues = st.allResources.length ∧
  st.summary.ByState.sumValues
    = (st.allResources.filter (fun r => r.State ≠ "")).length ∧
  st.summary.Errors = st.errors.length

/-- Proof helper: overwrite the `Duration` field of a fold state. -/
def setDuration (st : AggState) (d : Int) : AggState :=
  { st with summary := { st.summary with Duration := d } }

/-- Concrete registry fixture: an `s3`-style collector pinned to one canonical
region and an `ec2`-style collector with no fixed region list. -/
def s3ec2Orch : Orchestrator :=
  ⟨[("s3", ⟨["us-east-1"], fun _ => ([], none)⟩),
    ("ec2", ⟨[], fun _ => ([], none)⟩)]⟩

/-- Concrete registry fixture: `svc-a` always fails, `svc-b` returns one
resource. -/
def failFastOrch : Orchestrator :=
  ⟨[("svc-a", ⟨[], fun _ => ([], some "boom")⟩),
    ("svc-b", ⟨[], fun region =>
      ([{ Service := "svc-b", Region := region, ID := "id-1" }], none)⟩)]⟩

/-- Options fixture requesting a service that has no registered collector. -/
def optsNoSuch : CollectOptions :=
  { Services := ["nosuch"], Regions := ["us-east-1"], Parallel := 4, FailFast := false }

/-- Options fixture with a negative concurrency limit. -/
def optsNegPar : CollectOptions :=
  { Services := [], Regions := [], Parallel := -1, FailFast := false }

/-- Options fixture with a zero concurrency limit. -/
def optsZeroPar : CollectOptions :=
  { Services := [], Regions := [], Parallel := 0, FailFast := false }

/-- Options fixture with fail-fast enabled. -/
def optsFailFast : CollectOptions :=
  { Services := ["svc-a", "svc-b"], Regions := ["r1"], Parallel := 2, FailFast := true }

/-! Helper lemmas about the aggregation fold. -/

namespace GoMap

theorem sum_incrList (l : List (String × Nat)) (k : String) (v : Nat) :
    ((incrList l k v).map Prod.snd).sum = (l.map Prod.snd).sum + v := by
  induction l with
  | nil => simp [incrList]
  | cons e rest ih =>
      obtain ⟨k', v'⟩ := e
      by_cases h : k' = k
      · simp [incrList, h]
        omega
      · simp [incrList, h, ih]
        omega

theorem sumValues_incr (m : GoMap) (k : String) (v : Nat) (h : m ≠ .nil) :
    (m.incr k v).sumValues = m.sumValues + v := by
  cases m with
  | nil => exact absurd rfl h
  | of l => simp [incr, sumValues, sum_incrList]

theorem incr_ne_nil (m : GoMap) (k : String) (v : Nat) (h : m ≠ .nil) :
    m.incr k v ≠ .nil := by
  cases m with
  | nil => exact absurd rfl h
  | of l => simp [incr]

end GoMap

theorem stateCount_ne_nil (m : GoMap) (r : Resource) (h : m ≠ .nil) :
    stateCount m r ≠ .nil := by
  unfold stateCount
  split
  · exact GoMap.incr_ne_nil m _ _ h
  · exact h

theorem stateCount_fold_ne_nil (resources : List Resource) (m : GoMap)
    (h : m ≠ .nil) : resources.foldl stateCount m ≠ .nil := by
  induction resources generalizing m with
  | nil => exact h
  | cons r rest ih => exact ih _ (stateCount_ne_nil m r h)

theorem stateCount_fold_sum (resources : List Resource) (m : GoMap)
    (h : m ≠ .nil) :
    (resources.foldl stateCount m).sumValues
      = m.sumValues + (resources.filter (fun r => r.State ≠ "")).length := by
  induction resources generalizing m with
  | nil => simp
  | cons r rest ih =>
      rw [List.foldl_cons, ih _ (stateCount_ne_nil m r h), List.filter_cons]
      by_cases hs : r.State ≠ ""
      · rw [show stateCount m r = m.incr r.State 1 from if_pos hs,
          GoMap.sumValues_incr m _ _ h]
        simp [hs]
        omega
      · rw [show stateCount m r = m from if_neg hs]
        simp [hs]

theorem aggInv_init (startTime now : Int) : aggInv (aggInit startTime now) := by
  simp [aggInv, aggInit, GoMap.make, GoMap.sumValues]

theorem aggStep_inv (st : AggState) (result : CollectorResult)
    (h : aggInv st) : aggInv (aggStep st result) := by
  obtain ⟨h1, h2, h3, h4, h5, h6, h7⟩ := h
  unfold aggStep
  cases hE : result.Error with
  | some e =>
      refine ⟨h1, h2, h3, h4, h5, h6, ?_⟩
      simp [h7]
  | none =>
      refine ⟨GoMap.incr_ne_nil _ _ _ h1, GoMap.incr_ne_nil _ _ _ h2,
        stateCount_fold_ne_nil _ _ h3, ?_, ?_, ?_, ?_⟩
      · simp only
        rw [GoMap.sumValues_incr _ _ _ h1, h4, List.length_append]
      · simp only
        rw [GoMap.sumValues_incr _ _ _ h2, h5, List.length_append]
      · simp only
        rw [stateCount_fold_sum _ _ h3, h6, List.filter_append, List.length_append]
      · exact h7

theorem foldl_aggStep_inv (results : List CollectorResult) (st : AggState)
    (h : aggInv st) : aggInv (results.foldl aggStep st) := by
  induction results generalizing st with
  | nil => exact h
  | cons r rest ih => exact ih _ (aggStep_inv _ _ h)

/-- The instrumented fold splits into the state fold and the event trace. -/
theorem aggFoldPair (results : List CollectorResult) (init : AggState)
    (evs : List AggEvent) :
    results.foldl
      (fun (acc : AggState × List AggEvent) result =>
        (aggStep acc.fst result,
         acc.snd ++ [AggEvent.foldOutcome result.Service result.Region]))
      (init, evs)
    = (results.foldl aggStep init,
       evs ++ results.map (fun r => AggEvent.foldOutcome r.Service r.Region)) := by
  induction results generalizing init evs with
  | nil => simp
  | cons r rest ih => simp [ih]

/-- Normal form of `aggregateResultsT`. -/
theorem aggregateResultsT_eq (results : List CollectorResult)
    (startTime now : Int) :
    aggregateResultsT results startTime now
      = (⟨(results.foldl aggStep (aggInit startTime now)).allResources,
          (results.foldl aggStep (aggInit startTime now)).errors,
          { (results.foldl aggStep (aggInit startTime now)).summary with
            Regions := (results.foldl aggStep (aggInit startTime now)).regionSet,
            Services := (results.foldl aggStep (aggInit startTime now)).serviceSet,
            TotalResources :=
              (results.foldl aggStep (aggInit startTime now)).allResources.length }⟩,
         AggEvent.readClock ::
           results.map (fun r => AggEvent.foldOutcome r.Service r.Region)) := by
  unfold aggregateResultsT
  rw [aggFoldPair]
  rfl

/-- C1: for every outcome list, the aggregated report's summary is
sum-consistent: `TotalResources` equals the length of `Resources`, the values
of `ByService` and of `ByRegion` each sum to `TotalResources`, `Errors` equals
the length of the error list, and the values of `ByState` sum to the number of
merged resources with a non-empty state (errored outcomes contribute to none
of these maps). -/
theorem aggregateResults_summary_consistent (results : List CollectorResult)
    (startTime now : Int) :
    (aggregateResults results startTime now).Summary.TotalResources
      = (aggregateResults results startTime now).Resources.length ∧
    (aggregateResults results startTime now).Summary.ByService.sumValues
      = (aggregateResults results startTime now).Summary.TotalResources ∧
    (aggregateResults results startTime now).Summary.Errors
      = (aggregateResults results startTime now).Errors.length ∧
    (aggregateResults results startTime now).Summary.ByRegion.sumValues
      = (aggregateResults results startTime now).Summary.TotalResources ∧
    (aggregateResults results startTime now).Summary.ByState.sumValues
      = ((aggregateResults results startTime now).Resources.filter
          (fun r => r.State ≠ "")).length := by
  have h := foldl_aggStep_inv results _ (aggInv_init startTime now)
  obtain ⟨h1, h2, h3, h4, h5, h6, h7⟩ := h
  unfold aggregateResults
  rw [aggregateResultsT_eq]
  exact ⟨rfl, h4, h7, h5, h6⟩

theorem foldl_aggStep_all_errored (results : List CollectorResult)
    (st : AggState) (h : ∀ r ∈ results, r.Error.isSome) :
    (results.foldl aggStep st).allResources = st.allResources ∧
    (results.foldl aggStep st).summary.ByService = st.summary.ByService ∧
    (results.foldl aggStep st).summary.ByRegion = st.summary.ByRegion ∧
    (results.foldl aggStep st).summary.ByState = st.summary.ByState := by
  induction results generalizing st with
  | nil => exact ⟨rfl, rfl, rfl, rfl⟩
  | cons r rest ih =>
      obtain ⟨e, he⟩ := Option.isSome_iff_exists.mp (h r (by simp))
      rw [List.foldl_cons]
      have hrec := ih (aggStep st r) (fun x hx => h x (by simp [hx]))
      simpa [aggStep, he] using hrec

/-- C10: for every input outcome list (the empty one included) the three
summary maps of the report are non-nil (they are made with `make`); and a run
in which every outcome errored yields zero total resources and empty — but
still made, never nil — maps. -/
theorem aggregateResults_maps_made (results : List CollectorResult)
    (startTime now : Int) :
    (aggregateResults results startTime now).Summary.ByService ≠ .nil ∧
    (aggregateResults results startTime now).Summary.ByRegion ≠ .nil ∧
    (aggregateResults results startTime now).Summary.ByState ≠ .nil ∧
    ((∀ r ∈ results, r.Error.isSome) →
      (aggregateResults results startTime now).Summary.TotalResources = 0 ∧
      (aggregateResults results startTime now).Summary.ByService = .of [] ∧
      (aggregateResults results startTime now).Summary.ByRegion = .of [] ∧
      (aggregateResults results startTime now).Summary.ByState = .of []) := by
  have h := foldl_aggStep_inv results _ (aggInv_init startTime now)
  obtain ⟨h1, h2, h3, -⟩ := h
  unfold aggregateResults
  rw [aggregateResultsT_eq]
  refine ⟨h1, h2, h3, ?_⟩
  intro hall
  obtain ⟨ha, hbs, hbr, hbt⟩ :=
    foldl_aggStep_all_errored results (aggInit startTime now) hall
  refine ⟨?_, ?_, ?_, ?_⟩
  · show (List.foldl aggStep (aggInit startTime now)
      results).allResources.length = 0
    rw [ha]; rfl
  · show (List.foldl aggStep (aggInit startTime now)
      results).summary.ByService = .of []
    rw [hbs]; rfl
  · show (List.foldl aggStep (aggInit startTime now)
      results).summary.ByRegion = .of []
    rw [hbr]; rfl
  · show (List.foldl aggStep (aggInit startTime now)
      results).summary.ByState = .of []
    rw [hbt]; rfl

/-- Witness for C10 on a one-outcome all-errored run: the maps are made and
empty and the total is zero. -/
theorem aggregateResults_maps_made_witness :
    (∀ r ∈ [(⟨"ec2", "us-east-1", [], some "boom"⟩ : CollectorResult)],
      r.Error.isSome) ∧
    (aggregateResults [⟨"ec2", "us-east-1", [], some "boom"⟩]
        0 0).Summary.TotalResources = 0 ∧
    (aggregateResults [⟨"ec2", "us-east-1", [], some "boom"⟩]
        0 0).Summary.ByService = .of [] :=
  ⟨by decide,
   ((aggregateResults_maps_made [⟨"ec2", "us-east-1", [], some "boom"⟩]
      0 0).2.2.2 (by decide)).1,
   ((aggregateResults_maps_made [⟨"ec2", "us-east-1", [], some "boom"⟩]
      0 0).2.2.2 (by decide)).2.1⟩

theorem aggStep_setDuration (st : AggState) (d : Int) (r : CollectorResult) :
    aggStep (setDuration st d) r = setDuration (aggStep st r) d := by
  cases hE : r.Error <;> simp [aggStep, setDuration, hE]

theorem foldl_aggStep_setDuration (results : List CollectorResult)
    (st : AggState) (d : Int) :
    results.foldl aggStep (setDuration st d)
      = setDuration (results.foldl aggStep st) d := by
  induction results generalizing st with
  | nil => rfl
  | cons r rest ih => rw [List.foldl_cons, aggStep_setDuration, ih, List.foldl_cons]

theorem aggInit_setDuration (st1 now1 st2 now2 : Int) :
    aggInit st2 now2 = setDuration (aggInit st1 now1) (now2 - st2) :=
  rfl

theorem foldl_aggStep_allResources (results : List CollectorResult)
    (st : AggState) :
    (results.foldl aggStep st).allResources
      = st.allResources
        ++ (results.filter (fun r => r.Error.isNone)).flatMap
            CollectorResult.Resources := by
  induction results generalizing st with
  | nil => simp
  | cons r rest ih =>
      rw [List.foldl_cons, ih, List.filter_cons]
      cases hE : r.Error with
      | some e => simp [aggStep, hE]
      | none => simp [aggStep, hE]

theorem foldl_aggStep_duration (results : List CollectorResult)
    (st : AggState) :
    (results.foldl aggStep st).summary.Duration = st.summary.Duration := by
  induction results generalizing st with
  | nil => rfl
  | cons r rest ih =>
      rw [List.foldl_cons, ih]
      cases hE : r.Error <;> simp [aggStep, hE]

/-- C7: the aggregator is deterministic apart from the clock-derived duration —
two runs on the same outcome list (under any two clocks) produce the same
`ByService`, `ByRegion` and `ByState` maps, the same `TotalResources` and
error count, and the same `Resources` list — and that list is the
concatenation of the non-errored outcomes' resources in fold order. -/
theorem aggregateResults_deterministic (results : List CollectorResult)
    (st1 now1 st2 now2 : Int) :
    (aggregateResults results st1 now1).Summary.ByService
      = (aggregateResults results st2 now2).Summary.ByService ∧
    (aggregateResults results st1 now1).Summary.ByRegion
      = (aggregateResults results st2 now2).Summary.ByRegion ∧
    (aggregateResults results st1 now1).Summary.ByState
      = (aggregateResults results st2 now2).Summary.ByState ∧
    (aggregateResults results st1 now1).Summary.TotalResources
      = (aggregateResults results st2 now2).Summary.TotalResources ∧
    (aggregateResults results st1 now1).Summary.Errors
      = (aggregateResults results st2 now2).Summary.Errors ∧
    (aggregateResults results st1 now1).Resources
      = (aggregateResults results st2 now2).Resources ∧
    (aggregateResults results st1 now1).Resources
      = (results.filter (fun r => r.Error.isNone)).flatMap
          CollectorResult.Resources := by
  have hset : results.foldl aggStep (aggInit st2 now2)
      = setDuration (results.foldl aggStep (aggInit st1 now1)) (now2 - st2) := by
    rw [aggInit_setDuration st1 now1 st2 now2, foldl_aggStep_setDuration]
  unfold aggregateResults
  rw [aggregateResultsT_eq results st1 now1, aggregateResultsT_eq results st2 now2,
    hset]
  refine ⟨rfl, rfl, rfl, rfl, rfl, rfl, ?_⟩
  simp [foldl_aggStep_allResources, aggInit]

/-- C6 counterexample: on the one-outcome list the event trace of the
aggregator reads the clock before folding the outcome, not after it, so the
claim that the duration measurement happens after all outcomes have been
folded is false. -/
theorem aggregateResults_duration_after_fold_cex :
    (aggregateResultsT [⟨"ec2", "us-east-1", [], none⟩] 0 5).snd
      = [AggEvent.readClock, AggEvent.foldOutcome "ec2" "us-east-1"] ∧
    (aggregateResultsT [⟨"ec2", "us-east-1", [], none⟩] 0 5).snd
      ≠ [AggEvent.foldOutcome "ec2" "us-east-1", AggEvent.readClock] := by
  rw [aggregateResultsT_eq]
  exact ⟨rfl, by decide⟩

/-- C6 amended: the report's duration is the current time minus the start
timestamp and the clock is read exactly once, but the read happens before any
outcome is folded (in the summary-literal initialization preceding the loop),
not after the fold. -/
theorem aggregateResults_duration_once_before_fold
    (results : List CollectorResult) (startTime now : Int) :
    (aggregateResultsT results startTime now).snd
      = AggEvent.readClock ::
          results.map (fun r => AggEvent.foldOutcome r.Service r.Region) ∧
    ((aggregateResultsT results startTime now).snd.count AggEvent.readClock) = 1 ∧
    (aggregateResults results startTime now).Summary.Duration
      = now - startTime := by
  have h0 : ((results.map
      (fun r => AggEvent.foldOutcome r.Service r.Region)).count
        AggEvent.readClock) = 0 := by
    rw [List.count_eq_zero]
    simp
  refine ⟨?_, ?_, ?_⟩
  · rw [aggregateResultsT_eq]
  · rw [aggregateResultsT_eq]
    simp only [List.count_cons_self, h0]
  · unfold aggregateResults
    rw [aggregateResultsT_eq]
    simp [foldl_aggStep_duration, aggInit]

/-- C5: folding one additional errored outcome appends exactly one formatted
message of the form `service/region: error` to the error list, increments the
error count by one, and changes nothing else: the flat resource list, the
total, the three counter maps and the distinct region/service sets are
untouched. -/
theorem aggregateResults_error_outcome (rs : List CollectorResult)
    (r : CollectorResult) (e : String) (startTime now : Int)
    (h : r.Error = some e) :
    (aggregateResults (rs ++ [r]) startTime now).Errors
      = (aggregateResults rs startTime now).Errors
        ++ [r.Service ++ "/" ++ r.Region ++ ": " ++ e] ∧
    (aggregateResults (rs ++ [r]) startTime now).Summary.Errors
      = (aggregateResults rs startTime now).Summary.Errors + 1 ∧
    (aggregateResults (rs ++ [r]) startTime now).Resources
      = (aggregateResults rs startTime now).Resources ∧
    (aggregateResults (rs ++ [r]) startTime now).Summary.TotalResources
      = (aggregateResults rs startTime now).Summary.TotalResources ∧
    (aggregateResults (rs ++ [r]) startTime now).Summary.ByService
      = (aggregateResults rs startTime now).Summary.ByService ∧
    (aggregateResults (rs ++ [r]) startTime now).Summary.ByRegion
      = (aggregateResults rs startTime now).Summary.ByRegion ∧
    (aggregateResults (rs ++ [r]) startTime now).Summary.ByState
      = (aggregateResults rs startTime now).Summary.ByState ∧
    (aggregateResults (rs ++ [r]) startTime now).Summary.Regions
      = (aggregateResults rs startTime now).Summary.Regions ∧
    (aggregateResults (rs ++ [r]) startTime now).Summary.Services
      = (aggregateResults rs startTime now).Summary.Services := by
  unfold aggregateResults
  rw [aggregateResultsT_eq (rs ++ [r]), aggregateResultsT_eq rs,
    List.foldl_append]
  simp only [List.foldl_cons, List.foldl_nil]
  simp [aggStep, h]

/-- Witness for C5 at a concrete errored outcome. -/
theorem aggregateResults_error_outcome_witness :
    (⟨"ec2", "us-east-1", [], some "boom"⟩ : CollectorResult).Error
      = some "boom" ∧
    (aggregateResults ([] ++ [⟨"ec2", "us-east-1", [], some "boom"⟩])
        0 0).Errors
      = (aggregateResults [] 0 0).Errors
        ++ ["ec2" ++ "/" ++ "us-east-1" ++ ": " ++ "boom"] :=
  ⟨rfl, (aggregateResults_error_outcome [] _ "boom" 0 0 rfl).1⟩

/-! Lemmas about the split loops and the service/region validation. -/

theorem splitBy_eq (p : String → Bool) (l : List String) :
    splitBy p l = (l.filter p, l.filter (fun x => !(p x))) := by
  induction l with
  | nil => rfl
  | cons x rest ih =>
      simp only [splitBy, ih, List.filter_cons]
      by_cases h : p x <;> simp [h]

theorem not_isSome_eq_isNone (o : Option CollectorModel) :
    (!o.isSome) = o.isNone := by
  cases o <;> rfl

/-- C9: `ValidateRegions` returns the valid requested regions in request order
together with the (possibly nil) error; the error is non-nil exactly when at
least one requested region is not in the discovered set, and when it is
non-nil its message lists every invalid region. -/
theorem ValidateRegions_spec (availableRegions regions : List String) :
    (ValidateRegions availableRegions regions).fst
      = regions.filter (fun r => availableRegions.contains r) ∧
    ((ValidateRegions availableRegions regions).snd.isSome
      ↔ ∃ r ∈ regions, ¬ availableRegions.contains r) ∧
    ∀ msg, (ValidateRegions availableRegions regions).snd = some msg →
      msg = "invalid regions: " ++ String.intercalate ", "
        (regions.filter (fun r => !(availableRegions.contains r))) := by
  have hiff : 0 < (regions.filter
        (fun r => !(availableRegions.contains r))).length
      ↔ ∃ r ∈ regions, ¬ availableRegions.contains r := by
    constructor
    · intro hpos
      obtain ⟨x, hx⟩ := List.exists_mem_of_length_pos hpos
      obtain ⟨hxl, hxp⟩ := List.mem_filter.mp hx
      exact ⟨x, hxl, by simpa using hxp⟩
    · rintro ⟨r, hrl, hrp⟩
      exact List.length_pos_of_mem
        (List.mem_filter.mpr ⟨hrl, by simpa using hrp⟩)
  simp only [ValidateRegions, splitBy_eq]
  refine ⟨?_, ?_, ?_⟩
  · split <;> rfl
  · split
    · next h => simpa using hiff.mp h
    · next h =>
        simp only [Option.isSome_none, Bool.false_eq_true, false_iff]
        intro hx
        exact h (hiff.mpr hx)
  · intro msg hmsg
    split at hmsg
    · simpa using hmsg.symm
    · cases hmsg

/-- Witness for C9: a request with one valid and one unknown region returns the
valid sublist and an error naming the unknown region. -/
theorem ValidateRegions_spec_witness :
    "invalid regions: mars-1"
      = "invalid regions: " ++ String.intercalate ", "
          ((["us-east-1", "mars-1"] : List String).filter
            (fun r => !((["us-east-1"] : List String).contains r))) :=
  (ValidateRegions_spec ["us-east-1"] ["us-east-1", "mars-1"]).2.2
    "invalid regions: mars-1" (by decide)

/-- C8: if some requested service has no registered collector, `Collect` fails
the whole run before any collection work: for every region-discovery outcome
and every behaviour of the registered collectors, the call returns exactly the
error naming the invalid services (in request order) and hence no report; the
result does not depend on `discovered` or on any `CollectFn`, so no work item
is built or executed. -/
theorem Collect_invalid_service (o : Orchestrator)
    (discovered : Except String (List String)) (startTime now : Int)
    (opts : CollectOptions)
    (h : ∃ s ∈ opts.Services, (lookupCollector o.collectors s).isNone) :
    Collect o discovered startTime now opts
      = .error ("invalid services: " ++ String.intercalate ", "
          (opts.Services.filter
            (fun s => (lookupCollector o.collectors s).isNone))) := by
  obtain ⟨s, hs, hnone⟩ := h
  have hne : opts.Services.isEmpty = false := by
    simp [List.isEmpty_iff, List.ne_nil_of_mem hs]
  have hmem : s ∈ opts.Services.filter
      (fun x => !((lookupCollector o.collectors x).isSome)) :=
    List.mem_filter.mpr ⟨hs, by rw [not_isSome_eq_isNone]; exact hnone⟩
  have hpos : 0 < (opts.Services.filter
      (fun x => !((lookupCollector o.collectors x).isSome))).length :=
    List.length_pos_of_mem hmem
  have hfe : (opts.Services.filter
        (fun x => !((lookupCollector o.collectors x).isSome)))
      = opts.Services.filter
        (fun x => (lookupCollector o.collectors x).isNone) := by
    simp only [not_isSome_eq_isNone]
  rw [hfe] at hpos
  simp only [Collect, prepareServices, hne, Bool.false_eq_true, if_false,
    splitBy_eq, hfe, gt_iff_lt, hpos, if_true]
  rfl

/-- Witness for C8 on a concrete registry and a request naming an unknown
service. -/
theorem Collect_invalid_service_witness :
    (∃ s ∈ optsNoSuch.Services,
      (lookupCollector s3ec2Orch.collectors s).isNone) ∧
    Collect s3ec2Orch (.ok ["us-east-1"]) 0 0 optsNoSuch
      = .error "invalid services: nosuch" :=
  ⟨⟨"nosuch", by decide, by decide⟩,
   by
    rw [Collect_invalid_service s3ec2Orch (.ok ["us-east-1"]) 0 0 optsNoSuch
      ⟨"nosuch", by decide, by decide⟩]
    rfl⟩

/-- C2 counterexample: the claim's no-duplicates guarantee does not hold for
all inputs — with a duplicated selected region, the builder emits the same
(service, region) pair twice. -/
theorem createWorkItems_dup_cex :
    ¬ (createWorkItems s3ec2Orch ["ec2"] ["us-east-1", "us-east-1"]).Nodup := by
  decide

/-- C2 amended: for each selected service whose collector declares a non-empty
fixed region list the builder emits exactly one work item per declared region,
ignoring the selected regions, and otherwise one per selected region (stated
as the membership characterization below, with uniqueness from freedom of
duplicates); the emitted list has no duplicate (service, region) pair provided
the selected services, the selected regions and each selected collector's
declared region list are themselves duplicate-free. -/
theorem createWorkItems_matrix (o : Orchestrator)
    (services regions : List String)
    (hs : services.Nodup) (hr : regions.Nodup)
    (hc : ∀ s ∈ services, (collectorRegionsOf o s).Nodup) :
    (createWorkItems o services regions).Nodup ∧
    ∀ s r, (⟨s, r⟩ : workItem) ∈ createWorkItems o services regions
      ↔ s ∈ services ∧
          r ∈ (if (collectorRegionsOf o s).length > 0
               then collectorRegionsOf o s else regions) := by
  constructor
  · simp only [createWorkItems, List.nodup_flatMap]
    constructor
    · intro a ha
      by_cases h : (collectorRegionsOf o a).length > 0
      · rw [if_pos h]
        exact (hc a ha).map fun x y hxy => by
          injection hxy with h1 h2
      · rw [if_neg h]
        exact hr.map fun x y hxy => by
          injection hxy with h1 h2
    · have hserv : ∀ (c : String) (x : workItem),
          x ∈ (if (collectorRegionsOf o c).length > 0
            then (collectorRegionsOf o c).map
              (fun region => (⟨c, region⟩ : workItem))
            else regions.map (fun region => (⟨c, region⟩ : workItem))) →
          x.Service = c := by
        intro c x hx
        by_cases h : (collectorRegionsOf o c).length > 0
        · rw [if_pos h] at hx
          obtain ⟨region, -, rfl⟩ := List.mem_map.mp hx
          rfl
        · rw [if_neg h] at hx
          obtain ⟨region, -, rfl⟩ := List.mem_map.mp hx
          rfl
      refine hs.imp ?_
      intro a b hab
      exact fun x hxa hxb =>
        hab ((hserv a x hxa).symm.trans (hserv b x hxb))
  · intro s r
    constructor
    · intro hmem
      simp only [createWorkItems, List.mem_flatMap] at hmem
      obtain ⟨a, ha, hx⟩ := hmem
      by_cases h : (collectorRegionsOf o a).length > 0
      · rw [if_pos h] at hx
        obtain ⟨region, hreg, heq⟩ := List.mem_map.mp hx
        injection heq with h1 h2
        subst h1; subst h2
        exact ⟨ha, by rw [if_pos h]; exact hreg⟩
      · rw [if_neg h] at hx
        obtain ⟨region, hreg, heq⟩ := List.mem_map.mp hx
        injection heq with h1 h2
        subst h1; subst h2
        exact ⟨ha, by rw [if_neg h]; exact hreg⟩
    · rintro ⟨hserv, hreg⟩
      simp only [createWorkItems, List.mem_flatMap]
      refine ⟨s, hserv, ?_⟩
      by_cases h : (collectorRegionsOf o s).length > 0
      · rw [if_pos h]
        rw [if_pos h] at hreg
        exact List.mem_map.mpr ⟨r, hreg, rfl⟩
      · rw [if_neg h]
        rw [if_neg h] at hreg
        exact List.mem_map.mpr ⟨r, hreg, rfl⟩

/-- Witness for C2's amended statement on the concrete registry: the work list
is duplicate-free and the s3-style service is paired with its declared
canonical region (not the selected region). -/
theorem createWorkItems_matrix_witness :
    (["s3", "ec2"] : List String).Nodup ∧
    (["eu-west-1"] : List String).Nodup ∧
    (createWorkItems s3ec2Orch ["s3", "ec2"] ["eu-west-1"]).Nodup ∧
    ((⟨"s3", "us-east-1"⟩ : workItem)
        ∈ createWorkItems s3ec2Orch ["s3", "ec2"] ["eu-west-1"]
      ↔ "s3" ∈ (["s3", "ec2"] : List String) ∧
          "us-east-1" ∈ (if (collectorRegionsOf s3ec2Orch "s3").length > 0
            then collectorRegionsOf s3ec2Orch "s3" else ["eu-west-1"])) :=
  ⟨by decide, by decide,
   (createWorkItems_matrix s3ec2Orch ["s3", "ec2"] ["eu-west-1"] (by decide)
      (by decide) (by decide)).1,
   (createWorkItems_matrix s3ec2Orch ["s3", "ec2"] ["eu-west-1"] (by decide)
      (by decide) (by decide)).2 "s3" "us-east-1"⟩

/-- C3 (refutation): `executeCollection` passes `opts.Parallel` to the
semaphore construction with no rejection or clamping — a negative limit hits
the Go runtime's channel-constructor panic, and a zero limit builds a
capacity-0 semaphore, not one of capacity at least 1 (with no receiver ever
available, acquisition then blocks forever and the call deadlocks under a
never-cancelled context). -/
theorem executeCollection_semaphore_unclamped :
    executeCollectionSemaphoreCap optsNegPar
      = .error "makechan: size out of range" ∧
    executeCollectionSemaphoreCap optsZeroPar = .ok 0 :=
  ⟨rfl, rfl⟩

/-- C4 (refutation): with fail-fast enabled and the first work item's collector
always failing, the executor still runs every work item and records one
outcome per item — the fail-fast conditional in the task body is an empty
block, so nothing cancels the shared signal and no not-yet-started work item
is skipped. -/
theorem executeCollection_failFast_no_skip :
    executeCollection failFastOrch [⟨"svc-a", "r1"⟩, ⟨"svc-b", "r1"⟩]
        optsFailFast
      = [⟨"svc-a", "r1", [], some "boom"⟩,
         ⟨"svc-b", "r1",
          [{ Service := "svc-b", Region := "r1", ID := "id-1" }], none⟩] ∧
    (executeCollection failFastOrch [⟨"svc-a", "r1"⟩, ⟨"svc-b", "r1"⟩]
        optsFailFast).length = 2 :=
  ⟨rfl, rfl⟩

end AwsInv
